import Mathlib

/-!
Verification of the NUMA arena / fixed-size freelist pool allocator from
`src/hdr/custom-allocator.h` (classes `NumaArena` and `FixedPool<T>`).

Shallow embedding notes.

* `std::size_t` is 64-bit unsigned on the target platform (Linux, x86-64, per
  the `<numa.h>` / `<sys/mman.h>` includes); arithmetic that the source performs
  on `size_t` is modelled on `Nat` with an explicit reduction modulo `2 ^ 64`
  exactly where the source can wrap (`round_up`'s addition and the
  `capacity_ * slot_size_` product in the `FixedPool` constructor).

* Pointers are modelled as `Nat` addresses, with `0` playing the role of
  `nullptr`.  The arena base address (the result of `numa_alloc_onnode`) is a
  parameter; the OS-dependent success-path side effects of the `NumaArena`
  constructor (`mlockall`, `madvise`, prefaulting) do not change the modelled
  state and are omitted.

* `FixedPool<T>::Node` is `struct CACHE_ALIGNED Node { Node* next;
  alignas(64) std::byte storage[sizeof(T)]; }`, so `offsetof(Node, storage)`
  is `64` (the 8-byte `next` field padded up to the 64-byte alignment of
  `storage`) and `sizeof(Node)` is `64 + sizeof(T)` rounded up to 64 (the
  alignment of `Node`).  `Node::payload()` is modelled as the address of the
  `storage` member, i.e. node address plus 64: that is the address which
  `Node::from` explicitly inverts (`b - offsetof(Node, storage)`), and the
  address the source's `std::bit_cast<T*>(storage)` is evidently meant to
  spell (as written that cast is ill-formed unless `sizeof(T) == 8`; the
  stray `mjn` after `noexcept` on `init_freelist` is likewise disregarded
  as a typo).

* The in-memory singly linked free list (head pointer `free_head_` plus the
  `next` fields chained through the slots) is abstracted as a `List Nat` of
  node addresses, head first.  This abstraction is faithful whenever the
  nodes are pairwise disjoint memory regions, which holds for every pool the
  constructor can actually build: `slot_size_` is at least 128 whenever its
  `round_up` does not wrap (see `slot_size_lower_bound`).  Theorems about
  the free list therefore carry the hypothesis `64 ≤ slot size` (or the
  weaker `0 < slot size`) making that faithfulness condition explicit.

* Sequential semantics: `allocate` / `deallocate` are single-thread CAS
  loops; executed without interference the `compare_exchange_weak` succeeds
  on the first iteration, so `allocate` is exactly "pop the head" and
  `deallocate` exactly "push the node", which is what the model implements.
-/

namespace CustomAllocator

/-- `2 ^ 64` : `std::size_t` arithmetic on the target is modulo this. -/
def U64 : Nat := 2 ^ 64

/-- `#define CACHELINE_SIZE 64`. -/
def CACHELINE_SIZE : Nat := 64

/-- `static std::size_t round_up(std::size_t x, std::size_t a) {
      return (x + a - 1) & ~(a - 1); }`
(private helper of both `NumaArena` and `FixedPool`, identical text).
The addition is `size_t` addition, hence the `% U64`; the 64-bit complement
`~(a - 1)` equals `2 ^ 64 - a` for `1 ≤ a ≤ 2 ^ 64` (both call sites pass a
positive power of two: the system page size, resp. `CACHELINE_SIZE`). -/
def round_up (x a : Nat) : Nat := ((x + a - 1) % U64) &&& (U64 - a)

/-- `class NumaArena` state after construction: `base_` (from
`numa_alloc_onnode`), `size_`, `node_`. -/
structure NumaArena where
  base : Nat
  size : Nat
  node : Int
deriving DecidableEq, Repr

/-- `NumaArena::NumaArena(std::size_t bytes, int numa_node, bool prefer_thp)`,
success path: `size_(round_up(bytes, page_size())), node_(numa_node)`;
`base_` is the address returned by `numa_alloc_onnode(size_, node_)`
(a runtime parameter here).  `mlockall`, `madvise(MADV_HUGEPAGE)` and the
prefault loop do not affect the modelled state. -/
def NumaArena.construct (bytes : Nat) (numa_node : Int) (page_size base : Nat) :
    NumaArena :=
  { base := base, size := round_up bytes page_size, node := numa_node }

/-- `offsetof(Node, storage)`: `next` occupies bytes 0..7 and `storage` is
`alignas(CACHELINE_SIZE)`, so it starts at byte 64. -/
def payload_offset : Nat := 64

/-- `sizeof(FixedPool<T>::Node)` as a function of `sizeof(T)`: the 64-byte
header (the `next` pointer padded to the alignment of `storage`) plus
`sizeof(T)` rounded up to 64, the alignment of `Node`.  `sizeof` values are
exact compiler-computed object sizes (no wraparound). -/
def sizeofNode (sizeofT : Nat) : Nat := 64 + (sizeofT + 63) / 64 * 64

/-- The `slot_size_` member initializer of the `FixedPool` constructor:
`round_up(std::max<std::size_t>(slot_size, sizeof(Node)), CACHELINE_SIZE)`. -/
def slotSizeOf (slot_size sizeofT : Nat) : Nat :=
  round_up (max slot_size (sizeofNode sizeofT)) CACHELINE_SIZE

/-- `class FixedPool<T>` state: the free list (`free_head_` plus the chain of
`next` fields, abstracted as the list of node addresses, head first) and the
immutable `capacity_` and `slot_size_` members.  `storage_` is implicit in
the node addresses. -/
structure FixedPool where
  free_list : List Nat
  capacity : Nat
  slot_size : Nat
deriving DecidableEq, Repr

/-- `FixedPool::init_freelist()`: nodes live at `storage_ + i * slot_size_`
for `i = 0, …, capacity_ - 1`; the loop links each node to the previous one
and finally stores the last node into `free_head_`, so the abstract list is
`[base + (capacity-1)*slot, …, base + slot, base]`. -/
def init_freelist (base slot_size : Nat) : Nat → List Nat
  | 0 => []
  | n + 1 => (base + n * slot_size) :: init_freelist base slot_size n

/-- The construction error: `throw std::runtime_error("Arena too small for
requested capacity")`. -/
inductive CtorError where
  | arenaTooSmall
deriving DecidableEq, Repr

/-- `FixedPool::FixedPool(NumaArena& arena, std::size_t capacity, std::size_t
slot_size)`: computes `slot_size_`, checks
`needed = capacity_ * slot_size_` (a `size_t` product, hence `% U64`)
against `arena.size()`, then sets `storage_ = arena.base()` and runs
`init_freelist()`. -/
def FixedPool.construct (arena : NumaArena) (capacity slot_size sizeofT : Nat) :
    Except CtorError FixedPool :=
  let ss := slotSizeOf slot_size sizeofT
  let needed := capacity * ss % U64
  if arena.size < needed then
    .error .arenaTooSmall
  else
    .ok { free_list := init_freelist arena.base ss capacity
          capacity := capacity
          slot_size := ss }

/-- `T* FixedPool::allocate()`: load `free_head_`; if null return `nullptr`;
otherwise pop the head (the sequential execution of the CAS loop) and return
`head->payload()`, i.e. the node address plus `payload_offset`.  Returns the
result together with the updated pool. -/
def FixedPool.allocate (P : FixedPool) : Option Nat × FixedPool :=
  match P.free_list with
  | [] => (none, P)
  | n :: rest => (some (n + payload_offset), { P with free_list := rest })

/-- `void FixedPool::deallocate(T* obj)`: `if (!obj) return;` then
`Node* node = Node::from(obj)` (= `obj - offsetof(Node, storage)`) and push
`node` onto `free_head_` (the sequential execution of the CAS loop). -/
def FixedPool.deallocate (obj : Nat) (P : FixedPool) : FixedPool :=
  if obj = 0 then P
  else { P with free_list := (obj - payload_offset) :: P.free_list }

/-- `std::size_t FixedPool::free_count() const`: the source returns the
constant `0` ("return 0 to avoid scanning"). -/
def FixedPool.free_count (_ : FixedPool) : Nat := 0

/-- Call `allocate` `n` times in a row, collecting the returned values. -/
def allocs (P : FixedPool) : Nat → List (Option Nat) × FixedPool
  | 0 => ([], P)
  | n + 1 =>
    let r := P.allocate
    let rest := allocs r.2 n
    (r.1 :: rest.1, rest.2)

/-! ### Arithmetic of `round_up` -/

/-- Bitwise characterization of the high-bit mask: for `m < 2 ^ 64` and
`k ≤ 64`, `m & ~(2^k - 1)` (the 64-bit complement being `2 ^ 64 - 2 ^ k`)
clears the low `k` bits of `m`. -/
theorem land_highmask (m k : Nat) (hk : k ≤ 64) (hm : m < U64) :
    m &&& (U64 - 2 ^ k) = m / 2 ^ k * 2 ^ k := by
  have hmask : U64 - 2 ^ k = (2 ^ (64 - k) - 1) <<< k := by
    rw [Nat.shiftLeft_eq, Nat.sub_mul, one_mul, ← pow_add]
    have : 64 - k + k = 64 := by omega
    rw [this]
    rfl
  have hdiv : m / 2 ^ k * 2 ^ k = (m >>> k) <<< k := by
    rw [Nat.shiftRight_eq_div_pow, Nat.shiftLeft_eq]
  rw [hmask, hdiv]
  apply Nat.eq_of_testBit_eq
  intro i
  rw [Nat.testBit_land, Nat.testBit_shiftLeft, Nat.testBit_shiftLeft,
    Nat.testBit_two_pow_sub_one, Nat.testBit_shiftRight]
  by_cases hki : k ≤ i
  · have hik : k + (i - k) = i := by omega
    rw [hik]
    by_cases hi : i < 64
    · have : i - k < 64 - k := by omega
      simp [hki, ge_iff_le, this]
    · have : m.testBit i = false := by
        apply Nat.testBit_lt_two_pow
        calc m < U64 := hm
          _ ≤ 2 ^ i := Nat.pow_le_pow_right (by omega) (by omega)
      simp [this]
  · simp [hki, ge_iff_le]

/-- `round_up` at a power-of-two alignment `2 ^ k` is round-to-multiple, on
the (possibly wrapped) 64-bit sum `x + 2^k - 1`. -/
theorem round_up_pow2 (x k : Nat) (hk : k ≤ 64) :
    round_up x (2 ^ k) = (x + 2 ^ k - 1) % U64 / 2 ^ k * 2 ^ k := by
  unfold round_up
  exact land_highmask _ k hk (Nat.mod_lt _ (by norm_num [U64]))

/-- `round_up x a` is always a multiple of the power-of-two alignment. -/
theorem round_up_dvd (x k : Nat) (hk : k ≤ 64) : 2 ^ k ∣ round_up x (2 ^ k) := by
  rw [round_up_pow2 x k hk]
  exact dvd_mul_left _ _

/-- As long as the `size_t` addition `x + a - 1` does not wrap, `round_up`
rounds up: the result is at least `x`. -/
theorem le_round_up (x k : Nat) (hk : k ≤ 64) (hx : x + 2 ^ k - 1 < U64) :
    x ≤ round_up x (2 ^ k) := by
  rw [round_up_pow2 x k hk, Nat.mod_eq_of_lt hx]
  have hpos : 0 < 2 ^ k := Nat.pos_pow_of_pos k (by omega)
  have h1 := Nat.div_add_mod (x + 2 ^ k - 1) (2 ^ k)
  have h2 : (x + 2 ^ k - 1) % 2 ^ k < 2 ^ k := Nat.mod_lt _ hpos
  rw [Nat.mul_comm]
  omega

/-- Every pool the constructor can build over a genuine payload type
(`sizeof(T) ≥ 1`) has `slot_size_ ≥ 128`, as long as the `size_t` addition
inside `round_up` does not wrap: slots are whole, disjoint memory regions.
(If that addition does wrap, `slot_size_` collapses to 0 and the slots all
alias — the degenerate regime the free-list theorems exclude with their
`64 ≤ slot size` hypotheses.) -/
theorem slot_size_lower_bound (slot st : Nat) (hst : 1 ≤ st)
    (hnw : max slot (sizeofNode st) + 63 < U64) : 128 ≤ slotSizeOf slot st := by
  have h64 : (64 : Nat) = 2 ^ 6 := by norm_num
  rw [slotSizeOf, CACHELINE_SIZE, h64, round_up_pow2 _ 6 (by omega)]
  rw [show (2 : Nat) ^ 6 = 64 by norm_num]
  rw [Nat.mod_eq_of_lt (by omega)]
  have hnode : 128 ≤ sizeofNode st := by
    rw [sizeofNode]
    omega
  have hmax : sizeofNode st ≤ max slot (sizeofNode st) := Nat.le_max_right _ _
  omega

/-! ### Basic free-list lemmas -/

/-- The initial free list is the slot grid in descending order. -/
theorem init_freelist_eq (base ss : Nat) :
    ∀ cap, init_freelist base ss cap =
      (List.range cap).reverse.map fun i => base + i * ss
  | 0 => rfl
  | cap + 1 => by
    rw [init_freelist, init_freelist_eq base ss cap, List.range_succ,
      List.reverse_append]
    rfl

/-- The constructor links exactly `capacity` slots into the free list. -/
theorem length_init_freelist (base ss cap : Nat) :
    (init_freelist base ss cap).length = cap := by
  rw [init_freelist_eq]
  simp

/-- With a positive stride the payload addresses of the initial free list are
pairwise distinct. -/
theorem nodup_init_freelist_payloads (base ss cap : Nat) (hss : 0 < ss) :
    ((init_freelist base ss cap).map fun n => n + payload_offset).Nodup := by
  rw [init_freelist_eq, List.map_map]
  apply List.Nodup.map
  · intro i j hij
    simp only [Function.comp] at hij
    have : i * ss = j * ss := by omega
    exact Nat.eq_of_mul_eq_mul_right hss this
  · exact List.nodup_reverse.mpr (List.nodup_range cap)

/-- Running `allocate` once per entry of the free list pops every entry, in
order, returning the payload address of each. -/
theorem allocs_full (c s : Nat) :
    ∀ l : List Nat, allocs ⟨l, c, s⟩ l.length =
      (l.map fun n => some (n + payload_offset), (⟨[], c, s⟩ : FixedPool))
  | [] => rfl
  | n :: l => by
    rw [List.length_cons, allocs, List.map_cons]
    exact congrArg (fun r => (some (n + payload_offset) :: r.1, r.2))
      (allocs_full c s l)

/-- Push-then-pop: `deallocate p` followed by `allocate` returns exactly `p`
and restores the pool state.  The hypothesis `64 ≤ p` says that `p` points
at (or past) a payload, i.e. at least `offsetof(Node, storage)` bytes into
the address space — true of every pointer `allocate` can return. -/
theorem dealloc_alloc (P : FixedPool) (p : Nat) (hp : 64 ≤ p) :
    (P.deallocate p).allocate = (some p, P) := by
  obtain ⟨l, c, s⟩ := P
  rw [FixedPool.deallocate, if_neg (by omega)]
  simp only [FixedPool.allocate]
  have hc : p - payload_offset + payload_offset = p :=
    Nat.sub_add_cancel (by simp only [payload_offset]; omega)
  rw [hc]

/-! ### Allocate/deallocate sequences with a ghost set of live pointers

The pool state is paired with the list of payload addresses handed out by
`allocate` and not yet passed back to `deallocate` ("live" pointers).  An
operation sequence is *valid* when every `deallocate` passes a currently
live pointer — the precondition the source imposes ("a pointer previously
returned by `allocate` on this same Pool"). -/

/-- One hot-path call: `allocate`, or `deallocate` of a given pointer. -/
inductive Op where
  | alloc : Op
  | dealloc (ptr : Nat) : Op
deriving DecidableEq, Repr

/-- Pool state plus the ghost list of live payload addresses. -/
structure Tracked where
  pool : FixedPool
  live : List Nat
deriving DecidableEq, Repr

/-- Effect of one call on the pool and on the ghost live list. -/
def Tracked.step (s : Tracked) : Op → Tracked
  | .alloc =>
    match s.pool.allocate with
    | (some a, P) => ⟨P, a :: s.live⟩
    | (none, P) => ⟨P, s.live⟩
  | .dealloc p => ⟨s.pool.deallocate p, s.live.erase p⟩

/-- Run a sequence of calls. -/
def Tracked.run (s : Tracked) : List Op → Tracked
  | [] => s
  | op :: ops => (s.step op).run ops

/-- Validity: every `deallocate` in the sequence passes a pointer that is
live at that point. -/
def Tracked.Valid (s : Tracked) : List Op → Prop
  | [] => True
  | .alloc :: ops => (s.step .alloc).Valid ops
  | .dealloc p :: ops => p ∈ s.live ∧ (s.step (.dealloc p)).Valid ops

instance Tracked.decidableValid : (s : Tracked) → (ops : List Op) →
    Decidable (s.Valid ops)
  | _, [] => isTrue trivial
  | s, .alloc :: ops => Tracked.decidableValid (s.step .alloc) ops
  | s, .dealloc p :: ops =>
    have : Decidable ((s.step (.dealloc p)).Valid ops) :=
      Tracked.decidableValid _ ops
    inferInstanceAs (Decidable (_ ∧ _))

/-- The allocator invariant: the payload addresses of the free slots and the
live pointers are pairwise distinct, and every live pointer lies at least
`payload_offset` bytes into the address space. -/
def Tracked.Inv (s : Tracked) : Prop :=
  ((s.pool.free_list.map fun n => n + payload_offset) ++ s.live).Nodup ∧
  ∀ a ∈ s.live, payload_offset ≤ a

/-- `allocate` preserves the invariant. -/
theorem Tracked.Inv.step_alloc {s : Tracked} (h : s.Inv) : (s.step .alloc).Inv := by
  obtain ⟨⟨l, c, sl⟩, live⟩ := s
  cases l with
  | nil => exact h
  | cons n t =>
    obtain ⟨h1, h2⟩ := h
    simp only [Tracked.step, FixedPool.allocate]
    constructor
    · exact (List.perm_middle.nodup_iff).mpr h1
    · intro a ha
      rcases List.mem_cons.mp ha with rfl | ha
      · exact Nat.le_add_left _ _
      · exact h2 a ha

/-- `deallocate` of a live pointer preserves the invariant. -/
theorem Tracked.Inv.step_dealloc {s : Tracked} {p : Nat} (h : s.Inv)
    (hp : p ∈ s.live) : (s.step (.dealloc p)).Inv := by
  obtain ⟨⟨l, c, sl⟩, live⟩ := s
  obtain ⟨h1, h2⟩ := h
  simp only at h1 h2 hp
  have hp64 : payload_offset ≤ p := h2 p hp
  have hp0 : ¬p = 0 := by simp only [payload_offset] at hp64; omega
  simp only [Tracked.step, FixedPool.deallocate, if_neg hp0]
  refine ⟨?_, fun a ha => h2 a (List.mem_of_mem_erase ha)⟩
  have hcancel : p - payload_offset + payload_offset = p :=
    Nat.sub_add_cancel hp64
  have hperm : ((l.map fun n => n + payload_offset) ++ live).Perm
      (p :: ((l.map fun n => n + payload_offset) ++ live.erase p)) :=
    (List.Perm.append_left (l.map fun n => n + payload_offset)
      (List.perm_cons_erase hp)).trans List.perm_middle
  simp only [List.map_cons, hcancel, List.cons_append]
  exact (hperm.nodup_iff).mp h1

/-- A valid sequence preserves the invariant. -/
theorem Tracked.Inv.run {s : Tracked} (h : s.Inv) :
    ∀ {ops : List Op}, s.Valid ops → (s.run ops).Inv := by
  intro ops
  induction ops generalizing s with
  | nil => intro _; exact h
  | cons op ops ih =>
    cases op with
    | alloc => intro hv; exact ih h.step_alloc hv
    | dealloc p => intro hv; exact ih (h.step_dealloc hv.1) hv.2

/-- A freshly constructed pool with a positive stride satisfies the
invariant (its ghost live list is empty). -/
theorem Inv_init (base ss cap : Nat) (hss : 0 < ss) :
    Tracked.Inv ⟨⟨init_freelist base ss cap, cap, ss⟩, []⟩ := by
  constructor
  · rw [List.append_nil]
    exact nodup_init_freelist_payloads base ss cap hss
  · intro a ha
    exact absurd ha (List.not_mem_nil a)

/-! ### Counting calls in a sequence -/

/-- Number of `allocate` calls in a sequence. -/
def numAllocs : List Op → Nat
  | [] => 0
  | .alloc :: ops => numAllocs ops + 1
  | .dealloc _ :: ops => numAllocs ops

/-- Number of `deallocate` calls in a sequence. -/
def numDeallocs : List Op → Nat
  | [] => 0
  | .alloc :: ops => numDeallocs ops
  | .dealloc _ :: ops => numDeallocs ops + 1

/-- Number of `allocate` calls that succeed (return a pointer rather than
null) when the sequence is run from state `s`. -/
def numSuccAllocs : Tracked → List Op → Nat
  | _, [] => 0
  | s, .alloc :: ops =>
    (if (s.pool.allocate).1.isSome then 1 else 0) +
      numSuccAllocs (s.step .alloc) ops
  | s, .dealloc p :: ops => numSuccAllocs (s.step (.dealloc p)) ops

/-- Bookkeeping: across a valid run, final live count plus deallocations
equals initial live count plus successful allocations. -/
theorem live_length_run : ∀ (ops : List Op) (s : Tracked), s.Valid ops →
    (s.run ops).live.length + numDeallocs ops =
      s.live.length + numSuccAllocs s ops
  | [], s, _ => rfl
  | .alloc :: ops, s, hv => by
    have ih := live_length_run ops (s.step .alloc) hv
    have hstep : (s.step .alloc).live.length =
        s.live.length + (if (s.pool.allocate).1.isSome then 1 else 0) := by
      obtain ⟨⟨l, c, sl⟩, live⟩ := s
      cases l with
      | nil => simp [Tracked.step, FixedPool.allocate]
      | cons n t => simp [Tracked.step, FixedPool.allocate]
    rw [Tracked.run, numDeallocs, numSuccAllocs]
    omega
  | .dealloc p :: ops, s, hv => by
    have ih := live_length_run ops (s.step (.dealloc p)) hv.2
    have hmem : p ∈ s.live := hv.1
    have hpos : 0 < s.live.length := List.length_pos.mpr (by
      intro hnil
      rw [hnil] at hmem
      exact absurd hmem (List.not_mem_nil p))
    have hstep : (s.step (.dealloc p)).live.length = s.live.length - 1 := by
      simp only [Tracked.step]
      exact List.length_erase_of_mem hmem
    rw [Tracked.run, numDeallocs, numSuccAllocs]
    omega

/-- The total number of slots (free plus live) is preserved by a valid run,
as long as no live pointer is null (true of every pointer `allocate` can
return, since payloads sit `payload_offset` bytes into their slot). -/
theorem total_length_run : ∀ (ops : List Op) (s : Tracked), s.Valid ops →
    0 ∉ s.live →
    (s.run ops).pool.free_list.length + (s.run ops).live.length =
      s.pool.free_list.length + s.live.length
  | [], _, _, _ => rfl
  | .alloc :: ops, s, hv, h0 => by
    have h0' : 0 ∉ (s.step .alloc).live := by
      obtain ⟨⟨l, c, sl⟩, live⟩ := s
      cases l with
      | nil => exact h0
      | cons n t =>
        simp only [Tracked.step, FixedPool.allocate, List.mem_cons,
          payload_offset]
        simp only at h0
        rintro (h | h)
        · omega
        · exact h0 h
    have ih := total_length_run ops (s.step .alloc) hv h0'
    have hstep : (s.step .alloc).pool.free_list.length +
        (s.step .alloc).live.length =
        s.pool.free_list.length + s.live.length := by
      obtain ⟨⟨l, c, sl⟩, live⟩ := s
      cases l with
      | nil => simp [Tracked.step, FixedPool.allocate]
      | cons n t => simp [Tracked.step, FixedPool.allocate]; omega
    rw [Tracked.run]
    omega
  | .dealloc p :: ops, s, hv, h0 => by
    have hmem : p ∈ s.live := hv.1
    have hp0 : ¬p = 0 := fun h => h0 (h ▸ hmem)
    have h0' : 0 ∉ (s.step (.dealloc p)).live := by
      simp only [Tracked.step]
      exact fun h => h0 (List.mem_of_mem_erase h)
    have ih := total_length_run ops (s.step (.dealloc p)) hv.2 h0'
    have hpos : 0 < s.live.length := List.length_pos.mpr (by
      intro hnil
      rw [hnil] at hmem
      exact absurd hmem (List.not_mem_nil p))
    have herase : (s.live.erase p).length = s.live.length - 1 :=
      List.length_erase_of_mem hmem
    have hstep : (s.step (.dealloc p)).pool.free_list.length +
        (s.step (.dealloc p)).live.length =
        s.pool.free_list.length + s.live.length := by
      simp only [Tracked.step, FixedPool.deallocate, if_neg hp0,
        List.length_cons, herase]
      omega
    rw [Tracked.run]
    omega

/-! ### Claim theorems -/

/-- C1: for every freshly constructed `FixedPool` of capacity `cap` (whose
constructor links exactly `cap` slots into the free list — the hypothesis
`64 ≤ ss` records the slot stride every real construction produces, which
makes the linked slots distinct), calling `allocate` `cap` times with no
interleaved `deallocate` returns a pointer (a `some`) every time, and the
`(cap+1)`-th call returns null (`none`). -/
theorem allocate_capacity_then_empty (base ss cap : Nat) (_hss : 64 ≤ ss) :
    (∀ r ∈ (allocs ⟨init_freelist base ss cap, cap, ss⟩ cap).1,
      r.isSome = true) ∧
    ((allocs ⟨init_freelist base ss cap, cap, ss⟩ cap).2.allocate).1 = none := by
  have hfull := allocs_full cap ss (init_freelist base ss cap)
  rw [length_init_freelist] at hfull
  rw [hfull]
  constructor
  · intro r hr
    obtain ⟨n, _, rfl⟩ := List.mem_map.mp hr
    rfl
  · rfl

/-- C1 witness: a concrete capacity-2 pool. -/
theorem allocate_capacity_then_empty_witness :
    (∀ r ∈ (allocs ⟨init_freelist 4096 128 2, 2, 128⟩ 2).1,
      r.isSome = true) ∧
    ((allocs ⟨init_freelist 4096 128 2, 2, 128⟩ 2).2.allocate).1 = none :=
  allocate_capacity_then_empty 4096 128 2 (by norm_num)

/-- C2: (a) round-trip — `deallocate p` followed immediately by `allocate`
returns exactly `p` (LIFO head push then pop) and restores the pool state;
(b) after any valid `allocate`/`deallocate` sequence (every `deallocate`
passing a currently live pointer) from a fresh pool, no two simultaneously
live allocations hold the same address. -/
theorem dealloc_realloc_lifo_and_live_nodup :
    (∀ (P : FixedPool) (p : Nat), 64 ≤ p →
      (P.deallocate p).allocate = (some p, P)) ∧
    (∀ (base ss cap : Nat), 64 ≤ ss → ∀ ops : List Op,
      Tracked.Valid ⟨⟨init_freelist base ss cap, cap, ss⟩, []⟩ ops →
      ((Tracked.run ⟨⟨init_freelist base ss cap, cap, ss⟩, []⟩ ops).live).Nodup) := by
  constructor
  · exact dealloc_alloc
  · intro base ss cap hss ops hv
    have h := (Inv_init base ss cap (by omega)).run hv
    exact h.1.of_append_right

/-- C2 witness: a capacity-2 pool, allocate, free, allocate again. -/
theorem dealloc_realloc_lifo_and_live_nodup_witness :
    ((⟨[1000], 4, 256⟩ : FixedPool).deallocate 6080).allocate
        = (some 6080, (⟨[1000], 4, 256⟩ : FixedPool)) ∧
    ((Tracked.run ⟨⟨init_freelist 4096 128 2, 2, 128⟩, []⟩
        [Op.alloc, Op.dealloc 4288, Op.alloc]).live).Nodup :=
  ⟨dealloc_realloc_lifo_and_live_nodup.1 ⟨[1000], 4, 256⟩ 6080 (by norm_num),
   dealloc_realloc_lifo_and_live_nodup.2 4096 128 2 (by norm_num)
     [Op.alloc, Op.dealloc 4288, Op.alloc] (by decide)⟩

/-- C3 counterexample: with a 4096-byte arena, capacity `2 ^ 57` and slot
size 1 (payload size 1, so the effective slot size is 128), the `size_t`
product `capacity_ * slot_size_` wraps to 0 and the constructor SUCCEEDS,
although the mathematical product `capacity * effective_slot_size = 2 ^ 64`
vastly exceeds the arena's size — refuting the claimed "if and only if". -/
theorem ctor_overflow_cex :
    FixedPool.construct ⟨4096, 4096, 0⟩ (2 ^ 57) 1 1 =
      .ok ⟨init_freelist 4096 (slotSizeOf 1 1) (2 ^ 57), 2 ^ 57, 128⟩ ∧
    (⟨4096, 4096, 0⟩ : NumaArena).size < 2 ^ 57 * slotSizeOf 1 1 := by
  have h : slotSizeOf 1 1 = 128 := by decide
  exact ⟨rfl, by rw [h]; norm_num⟩

/-- C3 (amended): construction fails with `ArenaTooSmall` iff
`capacity * effective_slot_size` computed in 64-bit (`size_t`) arithmetic
exceeds the arena's size, with
`effective_slot_size = round_up(max(requested, sizeof(Node)), 64)`; on
success, `slot_size()` returns exactly the effective slot size. -/
theorem ctor_fails_iff_and_slot_size (arena : NumaArena) (cap slot st : Nat) :
    (FixedPool.construct arena cap slot st = .error .arenaTooSmall ↔
      arena.size < cap * slotSizeOf slot st % U64) ∧
    (∀ P : FixedPool, FixedPool.construct arena cap slot st = .ok P →
      P.slot_size = slotSizeOf slot st) := by
  constructor
  · rw [FixedPool.construct]
    by_cases h : arena.size < cap * slotSizeOf slot st % U64
    · simp [h]
    · simp [h]
  · intro P hP
    rw [FixedPool.construct] at hP
    by_cases h : arena.size < cap * slotSizeOf slot st % U64
    · simp [h] at hP
    · simp only [if_neg h, Except.ok.injEq] at hP
      rw [← hP]

/-- C3 witness: a pool the constructor accepts, whose `slot_size()` is the
effective slot size. -/
theorem ctor_fails_iff_and_slot_size_witness :
    (⟨init_freelist 0 128 16, 16, 128⟩ : FixedPool).slot_size =
      slotSizeOf 64 64 :=
  (ctor_fails_iff_and_slot_size ⟨0, 4096, 0⟩ 16 64 64).2
    ⟨init_freelist 0 128 16, 16, 128⟩ rfl

/-- C4 counterexample: in the concrete scenario (1 MiB arena, capacity 16,
requested slot size 64 with a 64-byte payload), the first two addresses
returned by `allocate` are 6080 and 5952 (arena base 4096): they are spaced
128 bytes apart, not 64 — `slot_size_` is 128 because each slot also holds
the cache-line-aligned free-list node header. -/
theorem scenario_spacing_cex :
    FixedPool.construct ⟨4096, 2 ^ 20, 0⟩ 16 64 64 =
      .ok ⟨init_freelist 4096 128 16, 16, 128⟩ ∧
    (allocs ⟨init_freelist 4096 128 16, 16, 128⟩ 16).1.take 2 =
      [some 6080, some 5952] ∧
    6080 - 5952 = 128 ∧ ¬(6080 - 5952 = 64) := by
  exact ⟨rfl, by decide, by norm_num, by norm_num⟩

/-- C4 (amended): 1 MiB arena (any base), pool with capacity 16 and
requested slot size 64 over a 64-byte payload: construction succeeds with
effective slot size 128; the 16 `allocate` calls all succeed, returning 16
distinct addresses spaced exactly 128 bytes apart (descending); the 17th
`allocate` returns empty; after deallocating the first returned address,
the next `allocate` returns exactly that freed address. -/
theorem scenario_one_mib_pool (base : Nat) :
    FixedPool.construct ⟨base, 2 ^ 20, 0⟩ 16 64 64 =
      .ok ⟨init_freelist base 128 16, 16, 128⟩ ∧
    (allocs ⟨init_freelist base 128 16, 16, 128⟩ 16).1 =
      ((List.range 16).reverse.map fun i => some (base + i * 128 + 64)) ∧
    ((List.range 16).reverse.map fun i => base + i * 128 + 64).Nodup ∧
    List.Chain' (fun a b => a = b + 128)
      ((List.range 16).reverse.map fun i => base + i * 128 + 64) ∧
    ((allocs ⟨init_freelist base 128 16, 16, 128⟩ 16).2.allocate).1 = none ∧
    (((allocs ⟨init_freelist base 128 16, 16, 128⟩ 16).2).deallocate
        (base + 15 * 128 + 64)).allocate =
      (some (base + 15 * 128 + 64),
        (allocs ⟨init_freelist base 128 16, 16, 128⟩ 16).2) := by
  have hfull := allocs_full 16 128 (init_freelist base 128 16)
  rw [length_init_freelist] at hfull
  refine ⟨rfl, ?_, ?_, ?_, ?_, ?_⟩
  · rw [hfull, init_freelist_eq, List.map_map]
    simp [Function.comp, payload_offset]
  · apply List.Nodup.map
    · intro a b hab
      simp only at hab
      omega
    · exact List.nodup_reverse.mpr (List.nodup_range 16)
  · have hr : (List.range 16).reverse =
        [15, 14, 13, 12, 11, 10, 9, 8, 7, 6, 5, 4, 3, 2, 1, 0] := by decide
    rw [hr]
    simp only [List.map_cons, List.map_nil, List.chain'_cons,
      List.chain'_singleton]
    norm_num
  · rw [hfull]
    rfl
  · rw [hfull]
    exact dealloc_alloc ⟨[], 16, 128⟩ (base + 15 * 128 + 64) (by omega)

/-- C5 counterexample: on a capacity-1 pool, the valid sequence
`[allocate, allocate]` (no deallocates, so validity is trivial) ends with 1
live slot, but `#allocates − #deallocates = 2`: the second `allocate` fails
and allocates nothing, refuting the claimed count for "every sequence". -/
theorem live_count_cex :
    Tracked.Valid ⟨⟨init_freelist 4096 128 1, 1, 128⟩, []⟩
      [Op.alloc, Op.alloc] ∧
    (Tracked.run ⟨⟨init_freelist 4096 128 1, 1, 128⟩, []⟩
      [Op.alloc, Op.alloc]).live.length = 1 ∧
    numAllocs [Op.alloc, Op.alloc] - numDeallocs [Op.alloc, Op.alloc] = 2 ∧
    ¬((1 : Nat) = 2) := by
  exact ⟨by decide, by decide, by decide, by norm_num⟩

/-- C5 (amended): for every valid `allocate`/`deallocate` sequence (each
`deallocate` passing a currently live pointer) on a fresh pool, the number
of live slots after the sequence equals the number of SUCCESSFUL allocates
(those that return a pointer) minus the number of deallocates, and it never
exceeds the pool's capacity. -/
theorem live_count_succ_allocs (base ss cap : Nat) (_hss : 64 ≤ ss)
    (ops : List Op)
    (hv : Tracked.Valid ⟨⟨init_freelist base ss cap, cap, ss⟩, []⟩ ops) :
    (Tracked.run ⟨⟨init_freelist base ss cap, cap, ss⟩, []⟩ ops).live.length =
      numSuccAllocs ⟨⟨init_freelist base ss cap, cap, ss⟩, []⟩ ops -
        numDeallocs ops ∧
    (Tracked.run ⟨⟨init_freelist base ss cap, cap, ss⟩, []⟩ ops).live.length ≤
      cap := by
  have h1 := live_length_run ops _ hv
  have h2 := total_length_run ops _ hv (List.not_mem_nil 0)
  simp only [List.length_nil] at h1 h2
  rw [length_init_freelist] at h2
  exact ⟨by omega, by omega⟩

/-- C5 witness: allocate, free, allocate on a capacity-2 pool. -/
theorem live_count_succ_allocs_witness :
    (Tracked.run ⟨⟨init_freelist 4096 128 2, 2, 128⟩, []⟩
        [Op.alloc, Op.dealloc 4288, Op.alloc]).live.length =
      numSuccAllocs ⟨⟨init_freelist 4096 128 2, 2, 128⟩, []⟩
        [Op.alloc, Op.dealloc 4288, Op.alloc] -
        numDeallocs [Op.alloc, Op.dealloc 4288, Op.alloc] ∧
    (Tracked.run ⟨⟨init_freelist 4096 128 2, 2, 128⟩, []⟩
        [Op.alloc, Op.dealloc 4288, Op.alloc]).live.length ≤ 2 :=
  live_count_succ_allocs 4096 128 2 (by norm_num)
    [Op.alloc, Op.dealloc 4288, Op.alloc] (by decide)

/-- C6: `allocate` on an exhausted pool (empty free list) returns empty and
leaves the pool state completely unchanged, no matter how often it is
repeated; a subsequent `deallocate`/`allocate` pair on that pool still
behaves correctly (the deallocated address is returned again). -/
theorem exhausted_allocate_noop_and_recover (P : FixedPool)
    (h : P.free_list = []) :
    (∀ n : Nat, allocs P n = (List.replicate n none, P)) ∧
    (∀ p : Nat, 64 ≤ p → (P.deallocate p).allocate = (some p, P)) := by
  have halloc : P.allocate = (none, P) := by
    obtain ⟨l, c, s⟩ := P
    simp only at h
    subst h
    rfl
  constructor
  · intro n
    induction n with
    | zero => rfl
    | succ n ih => simp [allocs, halloc, ih, List.replicate_succ]
  · intro p hp
    exact dealloc_alloc P p hp

/-- C6 witness: a concrete exhausted pool. -/
theorem exhausted_allocate_noop_and_recover_witness :
    allocs ⟨[], 16, 128⟩ 3 =
      (List.replicate 3 none, (⟨[], 16, 128⟩ : FixedPool)) ∧
    ((⟨[], 16, 128⟩ : FixedPool).deallocate 6080).allocate =
      (some 6080, (⟨[], 16, 128⟩ : FixedPool)) :=
  ⟨(exhausted_allocate_noop_and_recover ⟨[], 16, 128⟩ rfl).1 3,
   (exhausted_allocate_noop_and_recover ⟨[], 16, 128⟩ rfl).2 6080 (by norm_num)⟩

/-- C7 counterexample: for a requested size of `2 ^ 64 - 1` bytes and
4096-byte pages, the `size_t` sum `bytes + page - 1` wraps, so the arena's
size is rounded to 0 — which is NOT at least the requested size, refuting
the claim for "every requested byte count". -/
theorem arena_round_up_wrap_cex :
    (NumaArena.construct (2 ^ 64 - 1) 0 4096 0).size = 0 ∧
    ¬(2 ^ 64 - 1 ≤ (NumaArena.construct (2 ^ 64 - 1) 0 4096 0).size) := by
  have h : (NumaArena.construct (2 ^ 64 - 1) 0 4096 0).size = 0 := by decide
  exact ⟨h, by rw [h]; norm_num⟩

/-- C7 (amended): the constructor sets the arena's size to
`round_up(bytes, page_size)` in 64-bit arithmetic.  For a power-of-two page
size `2 ^ k`, the resulting size is always a multiple of the page size, and
it is at least the requested size whenever the `size_t` sum
`bytes + page_size - 1` does not wrap (i.e. is `< 2 ^ 64`); `base` and
`node` hold the construction values. -/
theorem arena_size_rounded (bytes : Nat) (numa_node : Int) (k arena_base : Nat)
    (hk : k ≤ 64) :
    (NumaArena.construct bytes numa_node (2 ^ k) arena_base).size =
      round_up bytes (2 ^ k) ∧
    2 ^ k ∣ (NumaArena.construct bytes numa_node (2 ^ k) arena_base).size ∧
    (bytes + 2 ^ k - 1 < U64 →
      bytes ≤ (NumaArena.construct bytes numa_node (2 ^ k) arena_base).size) ∧
    (NumaArena.construct bytes numa_node (2 ^ k) arena_base).base =
      arena_base ∧
    (NumaArena.construct bytes numa_node (2 ^ k) arena_base).node =
      numa_node :=
  ⟨rfl, round_up_dvd bytes k hk,
   fun hx => le_round_up bytes k hk hx, rfl, rfl⟩

/-- C7 witness: a 10000-byte request with 4096-byte pages. -/
theorem arena_size_rounded_witness :
    (2 : Nat) ^ 12 ∣ (NumaArena.construct 10000 0 (2 ^ 12) 4096).size ∧
    10000 ≤ (NumaArena.construct 10000 0 (2 ^ 12) 4096).size := by
  have h := arena_size_rounded 10000 0 12 4096 (by norm_num)
  exact ⟨h.2.1, h.2.2.1 (by norm_num [U64])⟩

/-- C8: in every reachable pool state, `free_count()` returns 0 — the
accessor is the stub `return 0`. -/
theorem free_count_always_zero (P : FixedPool) : P.free_count = 0 := rfl

/-- C10: `deallocate(nullptr)` is a no-op: it returns immediately and leaves
the pool's entire state unchanged. -/
theorem deallocate_null_noop (P : FixedPool) : P.deallocate 0 = P := by
  rw [FixedPool.deallocate, if_pos rfl]

end CustomAllocator
